import Mathlib

/-!
Verification of the traefik-rules-manager reconciliation core.

This file is a shallow embedding, in Lean 4, of the backend modules of the
repository (src/server/yaml.js, validation.js, discovery.js, fs-helpers.js,
rules-service.js, app.js).  JavaScript objects become structures, JS strings
stay `String`, missing/`undefined` fields become `Option`, and the
asynchronous filesystem becomes an explicit `World` state threaded through
the operations.  YAML serialization (`js-yaml`'s `dump`/`load`, an external
library) is modelled at the level of the structured document it dumps and
re-loads: a file's content is the parsed `TraefikDoc` (or `none` for an
unparsable/corrupted file), since `load (dump doc) = doc` for these plain
documents.  Wall-clock timestamps are modelled by a `Nat` passed in by the
caller; `uuidv4()` is modelled by an explicit supply of fresh identifiers.
-/

/-! ## JS string primitives

JS `String.prototype.startsWith`/`endsWith`, modelled on the character
list of the string. -/

def jsStartsWith (s p : String) : Bool :=
  List.isPrefixOf p.toList s.toList

def jsEndsWith (s p : String) : Bool :=
  List.isSuffixOf p.toList s.toList

/-- JS `Map` built from a list of key/value pairs: later entries overwrite
earlier ones (`new Map(pairs).get k`). -/
def jsMapGet (pairs : List (String × String)) (k : String) : Option String :=
  pairs.foldl (fun acc p => if p.1 == k then some p.2 else acc) none

/-- JS `a || b` for an optional string `a` (both `undefined` and `''` are
falsy). -/
def jsOrStr (a : Option String) (b : String) : String :=
  match a with
  | some s => if s == "" then b else s
  | none => b

/-- Truthiness filter for an optional string: `undefined` and `''` are falsy. -/
def jsTruthyStr (a : Option String) : Option String :=
  match a with
  | some s => if s == "" then none else some s
  | none => none

/-! The parsed Traefik dynamic-configuration document (what
`js-yaml.load` returns for the files this system reads and writes).
JS objects with string keys become association lists in key-insertion
order, so `Object.keys(o)[0]` is the head of the list. -/

structure ServerEntry where
  url : String := ""
  deriving Repr, DecidableEq

structure StickyCookie where
  name : String := ""
  deriving Repr, DecidableEq

structure StickyConfig where
  cookie : StickyCookie := {}
  deriving Repr, DecidableEq

structure HealthCheckConfig where
  path : Option String := none
  interval : Option String := none
  deriving Repr, DecidableEq

structure LoadBalancerConfig where
  servers : List ServerEntry := []
  serversTransport : Option String := none
  passHostHeader : Option Bool := none
  sticky : Option StickyConfig := none
  healthCheck : Option HealthCheckConfig := none
  deriving Repr, DecidableEq

structure TlsConfig where
  certResolver : Option String := none
  deriving Repr, DecidableEq

structure RouterConfig where
  rule : String := ""
  service : Option String := none
  entryPoints : Option (List String) := none
  middlewares : Option (List String) := none
  priority : Option Int := none
  tls : Option TlsConfig := none
  deriving Repr, DecidableEq

structure ServiceConfig where
  loadBalancer : Option LoadBalancerConfig := none
  deriving Repr, DecidableEq

structure HttpSection where
  routers : Option (List (String × RouterConfig)) := none
  services : Option (List (String × ServiceConfig)) := none
  deriving Repr, DecidableEq

structure TraefikDoc where
  http : Option HttpSection := none
  deriving Repr, DecidableEq

/-! ## Data model

`TRule` is the rule record that flows through the API: request payloads,
metadata-index entries and discovery results are all objects of this shape
in the JS source (absent fields are `Option`/defaults). -/

structure TRule where
  id : String := ""
  name : String := ""
  hostname : String := ""
  backendUrl : List String := []
  entryPoints : List String := []
  tls : Bool := false
  middlewares : List String := []
  priority : Option Int := none
  certResolver : Option String := none
  passHostHeader : Option Bool := none
  stickySession : Bool := false
  healthCheckPath : Option String := none
  healthCheckInterval : Option String := none
  serviceName : Option String := none
  routerName : Option String := none
  serversTransport : Option String := none
  previousName : Option String := none
  entrypoints : Option (List String) := none
  fileName : String := ""
  lastModified : Option String := none
  isValid : Bool := true
  validationErrors : List String := []
  yamlContent : Option TraefikDoc := none
  deriving Repr, DecidableEq

/-- JS object property lookup on an association list (keys are unique in a
JS object, so first match suffices). -/
def jsGetProp {α : Type} (props : List (String × α)) (k : String) : Option α :=
  (props.find? (fun p => p.1 == k)).map (fun p => p.2)

/-! ## src/server/yaml.js — generateTraefikYaml

`generateTraefikYaml` builds the document object passed to `yaml.dump`;
we model it as the document itself. -/

/-- buildLoadBalancer from src/server/yaml.js. -/
def buildLoadBalancer (rule : TRule) : LoadBalancerConfig :=
  { servers := rule.backendUrl.map (fun url => { url := url })
    serversTransport := jsTruthyStr rule.serversTransport
    passHostHeader := rule.passHostHeader
    sticky := if rule.stickySession then some { cookie := { name := "sticky" } } else none
    healthCheck :=
      match jsTruthyStr rule.healthCheckPath with
      | some p =>
          some { path := some p
                 interval := jsTruthyStr rule.healthCheckInterval }
      | none => none }

/-- generateTraefikYaml from src/server/yaml.js (the document handed to
`yaml.dump`).  `serviceName`/`routerName` default to `name` when falsy. -/
def generateTraefikYaml (rule : TRule) : TraefikDoc :=
  let serviceName := jsOrStr rule.serviceName rule.name
  let routerName := jsOrStr rule.routerName rule.name
  { http := some
      { routers := some
          [(routerName,
            { rule := "Host(`" ++ rule.hostname ++ "`)"
              service := some serviceName
              entryPoints := some rule.entryPoints
              middlewares := if rule.middlewares.length != 0 then some rule.middlewares else none
              priority :=
                match rule.priority with
                | some p => if p == 0 then none else some p
                | none => none
              tls := if rule.tls then some { certResolver := jsTruthyStr rule.certResolver } else none })]
        services := some
          [(serviceName, { loadBalancer := some (buildLoadBalancer rule) })] } }

/-! ## src/server/validation.js

Ajv is compiled with `removeAdditional: 'all'`, so `validateRule` first
removes every property that is not listed in the schema (`previousName`,
`serviceName`, `routerName`, `serversTransport`, `fileName`, `isValid` are
not listed; `entrypoints` is listed as a tolerated typo alias) and then
validates the remaining fields, mutating its argument.  We model the
mutation by returning the stripped record alongside the boolean. -/

/-- normalizeRule from src/server/validation.js: maps the legacy
`entrypoints` alias onto `entryPoints`. -/
def normalizeRule (input : TRule) : TRule :=
  match input.entrypoints with
  | some eps =>
      if input.entryPoints.isEmpty then
        { input with entryPoints := eps, entrypoints := none }
      else input
  | none => input

/-- The character class of the `name` schema pattern and of `sanitizeName`:
`[a-zA-Z0-9-_]`. -/
def nameCharOk (c : Char) : Bool :=
  (('a' ≤ c && c ≤ 'z') || ('A' ≤ c && c ≤ 'Z') || ('0' ≤ c && c ≤ '9') || c == '-' || c == '_')

/-- `/^[a-zA-Z0-9-_]+$/.test name`. -/
def namePatternOk (name : String) : Bool :=
  name.toList.all nameCharOk && !name.toList.isEmpty

/-- Ajv's `removeAdditional: 'all'` pass: drops every property not listed in
the schema's `properties`. -/
def stripAdditional (r : TRule) : TRule :=
  { r with previousName := none, serviceName := none, routerName := none,
           serversTransport := none, fileName := "", isValid := true }

/-- The schema checks of `validateRule` (src/server/validation.js), after
removal of additional properties.  The `format: 'uri'` check of
`ajv-formats` is an external library predicate, passed in as `isUri`. -/
def validateRuleChecks (isUri : String → Bool) (r : TRule) : Bool :=
  namePatternOk r.name
    && r.hostname.length ≥ 1
    && r.backendUrl.length ≥ 1 && r.backendUrl.all isUri
    && r.entryPoints.length ≥ 1 && r.entryPoints.all (fun e => e.length ≥ 1)
    && r.middlewares.all (fun m => m.length ≥ 1)
    && (match r.priority with | some p => 0 ≤ p | none => true)

/-- `validateRule rule` with Ajv's in-place `removeAdditional` mutation:
returns the stripped rule and the validation verdict. -/
def validateRule (isUri : String → Bool) (r : TRule) : TRule × Bool :=
  let stripped := stripAdditional r
  (stripped, validateRuleChecks isUri stripped)

/-! ## src/server/discovery.js — extractRuleFromYaml / discoverRules -/

/-- The hostname regex of src/server/discovery.js, written in the source as
the literal `/Host\\(`([^`]+)`\\)/`.  In a JS regex literal `\\` matches one
literal backslash, so the pattern is: `Host`, a backslash, a backtick, one
or more non-backtick characters (group 2), a backtick, a backslash — with
group 1 spanning from the first backtick through the final backslash.
`match` scans left to right; `[^`]+` is greedy and cannot cross a backtick,
so the match attempt at a position is deterministic.  Returns `match[1]`. -/
def hostRegexAttempt (cs : List Char) : Option (List Char) :=
  match cs with
  | 'H' :: 'o' :: 's' :: 't' :: '\\' :: '`' :: rest =>
      let inner := rest.takeWhile (fun c => c != '`')
      let after := rest.dropWhile (fun c => c != '`')
      if inner.isEmpty then none
      else
        match after with
        | '`' :: '\\' :: _ => some ('`' :: inner ++ ['`', '\\'])
        | _ => none
  | _ => none

def hostRegexSearch : List Char → Option (List Char)
  | [] => none
  | c :: cs =>
      match hostRegexAttempt (c :: cs) with
      | some g => some g
      | none => hostRegexSearch cs

/-- `router.rule.match(/Host\\(`([^`]+)`\\)/)` followed by `hostMatch[1]`. -/
def hostMatchGroup (ruleStr : String) : Option String :=
  (hostRegexSearch ruleStr.toList).map (fun g => String.mk g)

/-- The guard sequence of `extractRuleFromYaml`: requires
`parsed.http.routers` and `parsed.http.services` to be present, a first
router key, the router, the service stored under the *router's* name, and a
truthy `router.rule`.  Returns the data the body uses. -/
def extractGuard (parsed : TraefikDoc) : Option (String × RouterConfig × ServiceConfig) :=
  match parsed.http with
  | none => none
  | some http =>
      match http.routers, http.services with
      | some routers, some services =>
          match routers.head? with
          | none => none
          | some (routerName, _) =>
              match jsGetProp routers routerName, jsGetProp services routerName with
              | some router, some service =>
                  if router.rule == "" then none else some (routerName, router, service)
              | _, _ => none
      | _, _ => none

/-- extractRuleFromYaml from src/server/discovery.js, split into the
guard (`extractGuard`) and the rule object built after the guards pass
(`extractedRule`).  The `idResolver(routerName, filePath)` callback is
effectful in the source (`uuidv4` on a cache miss), so the already-resolved
id is passed in; the caller resolves it from the router name exactly as the
source does.  File paths in the model are already basenames, so
`path.basename` is the identity. -/
def extractedRule (resolvedId : String) (routerName : String) (router : RouterConfig)
    (service : ServiceConfig) (filePath : String) : TRule :=
  let hostname := match hostMatchGroup router.rule with
                  | some h => h
                  | none => ""
  let lb := service.loadBalancer
  { id := resolvedId
    name := routerName
    hostname := hostname
    backendUrl := ((lb.map (fun l => l.servers)).getD []).map (fun s => s.url)
                    |>.filter (fun u => u != "")
    entryPoints := router.entryPoints.getD []
    tls := router.tls.isSome
    middlewares := router.middlewares.getD []
    validationErrors := []
    isValid := true
    lastModified := none
    priority := router.priority
    certResolver := router.tls.bind (fun t => t.certResolver)
    passHostHeader := lb.bind (fun l => l.passHostHeader)
    stickySession := (lb.bind (fun l => l.sticky)).isSome
    healthCheckPath := (lb.bind (fun l => l.healthCheck)).bind (fun h => h.path)
    healthCheckInterval := (lb.bind (fun l => l.healthCheck)).bind (fun h => h.interval)
    fileName := filePath }

def extractRuleFromYaml (resolvedId : String) (parsed : TraefikDoc) (filePath : String) : Option TRule :=
  match extractGuard parsed with
  | none => none
  | some (routerName, router, service) =>
      some (extractedRule resolvedId routerName router service filePath)

/-- One file of the watched directory: basename, parsed content (`none`
when the file is unparsable or corrupt) and modification time. -/
structure DiskFile where
  name : String := ""
  doc : Option TraefikDoc := none
  mtime : Nat := 0
  deriving Repr, DecidableEq

/-- `Date.toISOString()` rendering of a model timestamp (injective on real
millisecond clocks; collisions are possible only within one millisecond). -/
def isoString (t : Nat) : String :=
  toString t

/-- discoverRules from src/server/discovery.js, specialised to the id
resolver `syncFromDisk` passes it: `(name) => idMap.get(name) || uuidv4()`.
`fresh` is the stream of values successive `uuidv4()` calls return; one is
consumed per resolver miss.  Parse failures (`doc = none`) and files whose
guards fail are skipped and contribute no rules. -/
def discoverRules (files : List DiskFile) (idMap : List (String × String))
    (fresh : List String) : List TRule :=
  match files with
  | [] => []
  | f :: fs =>
      match f.doc with
      | none => discoverRules fs idMap fresh
      | some parsed =>
          match extractGuard parsed with
          | none => discoverRules fs idMap fresh
          | some (routerName, _, _) =>
              let idv := match jsMapGet idMap routerName with
                         | some x => x
                         | none => (fresh.head?).getD ""
              let fresh' := match jsMapGet idMap routerName with
                            | some _ => fresh
                            | none => fresh.tail
              match extractRuleFromYaml idv parsed f.name with
              | none => discoverRules fs idMap fresh'
              | some rule =>
                  { rule with lastModified := some (isoString f.mtime),
                              yamlContent := some parsed } ::
                    discoverRules fs idMap fresh'

/-! ## src/server/app.js — syncFromDisk -/

/-- syncFromDisk from src/server/app.js: builds
`idMap = new Map(existing.rules.map(r => [r.name, r.id]))`, runs discovery
with `(name) => idMap.get(name) || uuidv4()`, and overwrites the metadata
index wholesale with the result. -/
def syncFromDisk (existingRules : List TRule) (files : List DiskFile)
    (fresh : List String) : List TRule :=
  let idMap := existingRules.map (fun r => (r.name, r.id))
  discoverRules files idMap fresh

/-! ## src/server/fs-helpers.js — atomicWrite

`atomicWrite` ensures the directory, writes the content to a temp file and
renames it over the target; **on any failure it catches the error and
retries with a plain `fs.writeFile` of the target** ("As a last resort,
... write directly without temp", per the source comment).  The injected
`WriteOutcome` selects which of the underlying syscalls fail:

* `ok` — temp write + rename succeed (the atomic path);
* `fallbackOk` — the atomic path fails, the direct `fs.writeFile` succeeds;
* `failClean` — both fail, with the direct write failing on `open`
  (e.g. `EACCES`), leaving the target untouched;
* `failTruncated` — both fail, with the direct write failing *after*
  `open(O_TRUNC)` (e.g. `ENOSPC`), leaving the target truncated/corrupt.
-/

inductive WriteOutcome where
  | ok
  | fallbackOk
  | failClean
  | failTruncated
  deriving Repr, DecidableEq

/-- Create-or-replace a file in a directory listing. -/
def setFile (files : List DiskFile) (name : String) (doc : Option TraefikDoc)
    (mtime : Nat) : List DiskFile :=
  if files.any (fun f => f.name == name) then
    files.map (fun f => if f.name == name then { name := name, doc := doc, mtime := mtime } else f)
  else
    files ++ [{ name := name, doc := doc, mtime := mtime }]

def getFile (files : List DiskFile) (name : String) : Option (Option TraefikDoc) :=
  (files.find? (fun f => f.name == name)).map (fun f => f.doc)

def removeFile (files : List DiskFile) (name : String) : List DiskFile :=
  files.filter (fun f => f.name != name)

/-- Result of `atomicWrite`: the directory afterwards, whether the call
threw, and whether the silent non-atomic fallback path ran. -/
structure AtomicWriteResult where
  files : List DiskFile
  errored : Bool
  fallbackUsed : Bool
  deriving Repr, DecidableEq

/-- atomicWrite from src/server/fs-helpers.js under the injected outcome. -/
def atomicWrite (outcome : WriteOutcome) (files : List DiskFile) (filePath : String)
    (content : Option TraefikDoc) (now : Nat) : AtomicWriteResult :=
  match outcome with
  | .ok => { files := setFile files filePath content now, errored := false, fallbackUsed := false }
  | .fallbackOk => { files := setFile files filePath content now, errored := false, fallbackUsed := true }
  | .failClean => { files := files, errored := true, fallbackUsed := true }
  | .failTruncated => { files := setFile files filePath none now, errored := true, fallbackUsed := true }

/-! ## src/server/rules-service.js -/

/-- sanitizeName: `/^[a-zA-Z0-9-_]+$/.test(name) ? name : null`. -/
def sanitizeName (name : String) : Option String :=
  if namePatternOk name then some name else none

/-- buildYamlPath, with the directory elided (file names are basenames). -/
def buildYamlPath (name : String) : String :=
  name ++ ".yaml"

/-- backupPath: `{name}-{ISO stamp with [:.] replaced}.yaml`. -/
def backupPath (name : String) (now : Nat) : String :=
  name ++ "-" ++ isoString now ++ ".yaml"

/-- One file of the backups directory. -/
structure Backup where
  file : String := ""
  mtime : Nat := 0
  content : Option TraefikDoc := none
  deriving Repr, DecidableEq

/-- `copyFileSafe` to the backups directory (create-or-replace by name). -/
def setBackup (backups : List Backup) (b : Backup) : List Backup :=
  if backups.any (fun x => x.file == b.file) then
    backups.map (fun x => if x.file == b.file then b else x)
  else
    backups ++ [b]

/-- Insertion step for sorting by modification time, newest first.  Models
`sort((a, b) => b.mtime - a.mtime)`; with distinct mtimes the descending
order is unique, so any correct sort models the JS engine's. -/
def insertByMtimeDesc (b : Backup) : List Backup → List Backup
  | [] => [b]
  | x :: xs => if b.mtime ≤ x.mtime then x :: insertByMtimeDesc b xs else b :: x :: xs

def sortByMtimeDesc : List Backup → List Backup
  | [] => []
  | x :: xs => insertByMtimeDesc x (sortByMtimeDesc xs)

/-- pruneBackups from src/server/rules-service.js: no-op when
`maxBackups` is falsy or non-positive; otherwise the candidates are every
file in the backups directory whose name starts with `` `${name}-` `` and
ends with `.yaml`; they are sorted newest-first and everything past the
first `maxBackups` is deleted. -/
def pruneBackups (backups : List Backup) (name : String) (maxBackups : Int) : List Backup :=
  if maxBackups ≤ 0 then backups
  else
    let pre := name ++ "-"
    let candidates := backups.filter (fun b => jsStartsWith b.file pre && jsEndsWith b.file ".yaml")
    let sorted := sortByMtimeDesc candidates
    let toDelete := sorted.drop maxBackups.toNat
    backups.filter (fun b => !(toDelete.any (fun d => d.file == b.file)))

/-- The three directories plus the metadata index (the persisted
`index.json` always mirrors `indexRules` after each operation). -/
structure World where
  dynamicFiles : List DiskFile := []
  backupFiles : List Backup := []
  indexRules : List TRule := []
  deriving Repr, DecidableEq

inductive RErr where
  | validation
  | invalidName
  | duplicate
  | notFound
  | io
  deriving Repr, DecidableEq

deriving instance DecidableEq for Except

/-- createRule from src/server/rules-service.js.  `newId` is the
`uuidv4()` draw, `now` the wall clock, `outcome` the behaviour of the
injected filesystem during the primary write. -/
def createRule (w : World) (input : TRule) (newId : String) (now : Nat)
    (isUri : String → Bool) (outcome : WriteOutcome) : World × Except RErr TRule :=
  let (rule, valid) := validateRule isUri (normalizeRule { input with id := newId })
  if !valid then (w, .error .validation)
  else
    match sanitizeName rule.name with
    | none => (w, .error .invalidName)
    | some cleanName =>
        -- `if (!rule.serviceName) rule.serviceName = rule.name` (the source
        -- repeats this line; it is idempotent)
        let rule := if (jsTruthyStr rule.serviceName).isNone
                    then { rule with serviceName := some rule.name } else rule
        let meta := w.indexRules
        if meta.any (fun r => r.name == rule.name) then (w, .error .duplicate)
        else
          let yamlContent := generateTraefikYaml rule
          let filePath := buildYamlPath cleanName
          let aw := atomicWrite outcome w.dynamicFiles filePath (some yamlContent) now
          if aw.errored then ({ w with dynamicFiles := aw.files }, .error .io)
          else
            let storedRule := { rule with
              yamlContent := some yamlContent
              lastModified := some (isoString now)
              fileName := filePath
              isValid := true
              validationErrors := [] }
            ({ w with dynamicFiles := aw.files, indexRules := meta ++ [storedRule] },
             .ok storedRule)

/-- ASCII lowercasing for the case-insensitive `/i` regex flag. -/
def asciiLower (c : Char) : Char :=
  if c.toNat ≥ 65 && c.toNat ≤ 90 then Char.ofNat (c.toNat + 32) else c

/-- `(r.fileName || '').replace(/\.ya?ml$/i, '')`: strips a trailing
`.yaml`/`.yml` extension, matched case-insensitively. -/
def stemOfFileName (s : String) : String :=
  let low := s.toList.map asciiLower
  if List.isSuffixOf ".yaml".toList low then s.dropRight 5
  else if List.isSuffixOf ".yml".toList low then s.dropRight 4
  else s

/-- The index-entry resolution chain of updateRule: by `id`; failing that by
`previousName` against `name` or the `fileName` stem; failing that by the
new `name` against `name` or the `fileName` stem. -/
def resolveUpdateIndex (meta : List TRule) (idArg : String) (rule : TRule) : Option Nat :=
  match meta.findIdx? (fun r => r.id == idArg) with
  | some i => some i
  | none =>
      match jsTruthyStr rule.previousName with
      | some pn =>
          meta.findIdx? (fun r => r.name == pn || stemOfFileName r.fileName == pn)
      | none =>
          if rule.name != "" then
            meta.findIdx? (fun r => r.name == rule.name || stemOfFileName r.fileName == rule.name)
          else none

/-- updateRule from src/server/rules-service.js. -/
def updateRule (maxBackups : Int) (w : World) (idArg : String) (input : TRule)
    (now : Nat) (isUri : String → Bool) (outcome : WriteOutcome) :
    World × Except RErr TRule :=
  let (rule, valid) := validateRule isUri (normalizeRule { input with id := idArg })
  if !valid then (w, .error .validation)
  else
    let meta := w.indexRules
    match resolveUpdateIndex meta idArg rule with
    | none => (w, .error .notFound)
    | some index =>
        match sanitizeName rule.name with
        | none => (w, .error .invalidName)
        | some cleanName =>
            -- `const targetId = meta.rules[index]?.id || id`
            let targetId := jsOrStr ((meta.get? index).map (fun r => r.id)) idArg
            let rule := { rule with id := targetId }
            if meta.any (fun r => r.name == cleanName && r.id != targetId) then
              (w, .error .duplicate)
            else
              let yamlContent := generateTraefikYaml rule
              let filePath := buildYamlPath cleanName
              let previous := meta.get? index
              let backupFile := backupPath cleanName now
              -- `copyFileSafe(filePath, backupFile).catch(() => {})`
              let backups :=
                match getFile w.dynamicFiles filePath with
                | some content => setBackup w.backupFiles { file := backupFile, mtime := now, content := content }
                | none => w.backupFiles
              let aw := atomicWrite outcome w.dynamicFiles filePath (some yamlContent) now
              if aw.errored then
                ({ w with dynamicFiles := aw.files, backupFiles := backups }, .error .io)
              else
                let backups := pruneBackups backups cleanName maxBackups
                let files :=
                  match previous with
                  | some prev =>
                      if prev.name != "" && prev.name != cleanName then
                        removeFile aw.files (buildYamlPath prev.name)
                      else aw.files
                  | none => aw.files
                let storedRule := { rule with
                  yamlContent := some yamlContent
                  lastModified := some (isoString now)
                  fileName := filePath
                  isValid := true
                  validationErrors := [] }
                ({ dynamicFiles := files, backupFiles := backups,
                   indexRules := meta.set index storedRule },
                 .ok storedRule)

/-- deleteRule from src/server/rules-service.js. -/
def deleteRule (maxBackups : Int) (w : World) (idArg : String) (now : Nat) :
    World × Except RErr Unit :=
  let meta := w.indexRules
  match meta.findIdx? (fun r => r.id == idArg) with
  | none => (w, .error .notFound)
  | some index =>
      match meta.get? index with
      | none => (w, .error .notFound)
      | some rule =>
          let filePath := buildYamlPath rule.name
          let backupFile := backupPath rule.name now
          let backups :=
            match getFile w.dynamicFiles filePath with
            | some content => setBackup w.backupFiles { file := backupFile, mtime := now, content := content }
            | none => w.backupFiles
          let backups := pruneBackups backups rule.name maxBackups
          let files := removeFile w.dynamicFiles filePath
          ({ dynamicFiles := files, backupFiles := backups,
             indexRules := meta.eraseIdx index },
           .ok ())

/-! ## src/server/app.js — debounced file watcher

`startFileWatcher` registers `debouncedSync` on every add/change/unlink
event: `clearTimeout(timer); timer = setTimeout(syncFromDisk, 500)`.  The
model replays a chronologically ordered list of event times: each event
cancels the pending timer if it has not yet fired (its deadline is still in
the future) and arms a new one; a pending timer whose deadline has passed
by the next event has already fired.  The returned list holds the times at
which a reconciliation ran. -/

def watcherDebounceMs : Nat := 500

def debounceRun (window : Nat) : List Nat → Option Nat → List Nat
  | [], none => []
  | [], some d => [d]
  | t :: ts, none => debounceRun window ts (some (t + window))
  | t :: ts, some d =>
      if d ≤ t then d :: debounceRun window ts (some (t + window))
      else debounceRun window ts (some (t + window))

/-- The reconciliation times produced by a burst of watcher events. -/
def debounceFireTimes (events : List Nat) : List Nat :=
  debounceRun watcherDebounceMs events none

/-! ## Iterated updates (for the backup-pruning lifecycle)

`updatesSeq maxB isUri idArg inputs t w n` is the world after `n`
successive successful-filesystem `updateRule` calls against the same id:
the `j`-th call (1-based) uses payload `inputs j` at wall-clock `t j`. -/

def updatesSeq (maxB : Int) (isUri : String → Bool) (idArg : String)
    (inputs : Nat → TRule) (t : Nat → Nat) (w : World) : Nat → World
  | 0 => w
  | n + 1 => (updateRule maxB (updatesSeq maxB isUri idArg inputs t w n) idArg
      (inputs (n + 1)) (t (n + 1)) isUri .ok).1

/-! ## Concrete fixtures used by the claim theorems -/

/-- A minimal well-formed dynamic-configuration document with a single
router/service pair named `rn`. -/
def mkSimpleDoc (rn : String) : TraefikDoc :=
  { http := some
      { routers := some [(rn, { rule := "Host(`a.example.com`)", entryPoints := some ["web"] })]
        services := some [(rn, { loadBalancer := some { servers := [{ url := "http://x:1" }] } })] } }

/-- Index entry as a prior reconciliation pass would have left it for file
`app.yaml` containing a router named `web1`. -/
def c1Existing : TRule :=
  { id := "X"
    name := "web1"
    fileName := "app.yaml" }

/-- A valid update/create payload for a rule named `app`. -/
def appPayload : TRule :=
  { name := "app"
    hostname := "b.example.com"
    backendUrl := ["http://x:2"]
    entryPoints := ["web"]
    tls := false }

/-- World holding the single rule `app` (id `X`) with its YAML on disk. -/
def appWorld : World :=
  { dynamicFiles := [{ name := "app.yaml", doc := some (mkSimpleDoc "app"), mtime := 5 }]
    backupFiles := []
    indexRules := [{ id := "X"
                     name := "app"
                     fileName := "app.yaml"
                     hostname := "a.example.com"
                     backendUrl := ["http://x:1"]
                     entryPoints := ["web"] }] }

/-- An update payload that renames `app` to `api`, carrying the
`previousName` hint the spec's rename-via-form flow relies on. -/
def renamePayload : TRule :=
  { name := "api"
    previousName := some "app"
    hostname := "h.example.com"
    backendUrl := ["http://x:1"]
    entryPoints := ["web"]
    tls := false }

/-- The round-trip rule of the fidelity property: hostname, two backends,
two entry points, TLS with a cert resolver, two middlewares, sticky
session, health-check path. -/
def roundTripRule : TRule :=
  { name := "api"
    hostname := "api.example.com"
    backendUrl := ["http://10.0.0.1:8080", "http://10.0.0.2:8080"]
    entryPoints := ["web", "websecure"]
    tls := true
    certResolver := some "le"
    middlewares := ["auth", "compress"]
    stickySession := true
    healthCheckPath := some "/health" }

/-- Two distinct files whose YAML both define a router named `site`. -/
def siteFileA : DiskFile :=
  { name := "app1.yaml", doc := some (mkSimpleDoc "site"), mtime := 1 }

def siteFileB : DiskFile :=
  { name := "app2.yaml", doc := some (mkSimpleDoc "site"), mtime := 2 }

/-- A world with two distinct rules, used to exercise name-collision
rejection: renaming `blog` to `site` must conflict with the existing
`site` entry. -/
def dupWorld : World :=
  { indexRules :=
      [{ id := "A"
         name := "site"
         fileName := "site.yaml"
         hostname := "s.example.com"
         backendUrl := ["http://x:1"]
         entryPoints := ["web"] },
       { id := "B"
         name := "blog"
         fileName := "blog.yaml"
         hostname := "b.example.com"
         backendUrl := ["http://x:1"]
         entryPoints := ["web"] }] }

/-- A valid payload whose name collides with `dupWorld`'s `site` entry. -/
def sitePayload : TRule :=
  { name := "site"
    hostname := "s2.example.com"
    backendUrl := ["http://x:9"]
    entryPoints := ["web"]
    tls := false }

/-! ## Shared helper lemmas -/

theorem jsStartsWith_append (p t : String) : jsStartsWith (p ++ t) p = true := by
  simp [jsStartsWith, String.toList, String.data_append]

theorem jsEndsWith_append (t p : String) : jsEndsWith (t ++ p) p = true := by
  simp [jsEndsWith, String.toList, String.data_append]

theorem string_append_left_cancel {a b c : String} (h : a ++ b = a ++ c) : b = c := by
  have h2 := congrArg String.data h
  simp only [String.data_append] at h2
  exact String.ext (List.append_cancel_left h2)

theorem string_append_right_cancel {a b c : String} (h : a ++ c = b ++ c) : a = b := by
  have h2 := congrArg String.data h
  simp only [String.data_append] at h2
  exact String.ext (List.append_cancel_right h2)

/-- `backupPath name now` determines the stamp component. -/
theorem backupPath_inj_stamp {name : String} {t₁ t₂ : Nat}
    (h : backupPath name t₁ = backupPath name t₂) : isoString t₁ = isoString t₂ := by
  unfold backupPath at h
  have h2 := congrArg String.data h
  simp only [String.data_append, List.append_assoc] at h2
  have h3 := List.append_cancel_left (List.append_cancel_left h2)
  exact String.ext (List.append_cancel_right h3)

/-! ## Claim C2 -/

/-- Claim C2: the spec demands that a failure of the write-to-temp +
rename path propagates to the caller and is never replaced by a direct
non-atomic write.  The code does the opposite: when the atomic path fails
and the direct `fs.writeFile` fallback succeeds, `atomicWrite` returns
success to its caller, having written the target non-atomically.  (The
repository's own IMPROVEMENTS.md and MVP_READINESS_REPORT.md state the
fallback was removed, contradicting src/server/fs-helpers.js.) -/
theorem c2_atomic_write_silently_falls_back (files : List DiskFile) (filePath : String)
    (content : Option TraefikDoc) (now : Nat) :
    (atomicWrite .fallbackOk files filePath content now).errored = false
    ∧ (atomicWrite .fallbackOk files filePath content now).fallbackUsed = true
    ∧ (atomicWrite .fallbackOk files filePath content now).files = setFile files filePath content now :=
  ⟨rfl, rfl, rfl⟩

/-! ## Claim C3 -/

/-- Claim C3: the claim states a failed primary write leaves the prior
on-disk content unchanged.  Because `atomicWrite` falls back to a direct
`fs.writeFile` of the target, a fallback failure after `open(O_TRUNC)`
(e.g. `ENOSPC`) leaves the target truncated: `updateRule` aborts with an
IO error and the metadata index is indeed untouched, but the previously
intact `app.yaml` is corrupt afterwards. -/
theorem c3_failed_primary_write_truncates_file :
    (updateRule 10 appWorld "X" appPayload 6 (fun _ => true) .failTruncated).2
        = Except.error RErr.io
    ∧ (updateRule 10 appWorld "X" appPayload 6 (fun _ => true) .failTruncated).1.indexRules
        = appWorld.indexRules
    ∧ getFile appWorld.dynamicFiles "app.yaml" = some (some (mkSimpleDoc "app"))
    ∧ getFile (updateRule 10 appWorld "X" appPayload 6 (fun _ => true) .failTruncated).1.dynamicFiles
        "app.yaml" = some none := by
  decide

/-! ## Claim C5 -/

/-- Claim C5: the claim states that an `update` whose id misses the index
but whose payload carries `previousName` resolves the target through the
`previousName` fallback instead of failing.  In the code Ajv is compiled
with `removeAdditional: 'all'`, and `previousName` is not in the schema, so
`validateRule` deletes it from the payload before the fallback chain runs;
the rename-with-stale-id update below therefore returns `NotFoundError`
even though an entry named `previousName` exists. -/
theorem c5_previous_name_fallback_is_dead :
    renamePayload.previousName = some "app"
    ∧ appWorld.indexRules.map (fun r => r.name) = ["app"]
    ∧ appWorld.indexRules.all (fun r => r.id != "stale") = true
    ∧ (validateRule (fun _ => true) (normalizeRule { renamePayload with id := "stale" })).1.previousName
        = none
    ∧ (updateRule 10 appWorld "stale" renamePayload 7 (fun _ => true) .ok).2
        = Except.error RErr.notFound
    ∧ (updateRule 10 appWorld "stale" renamePayload 7 (fun _ => true) .ok).1 = appWorld := by
  decide

/-! ## Claim C6 -/

/-- Claim C6: round-trip fidelity fails on the hostname.  The regex in
src/server/discovery.js is written `/Host\\(`...`\\)/`; `\\` in a JS regex
literal matches a literal backslash, so the pattern can never match the
`Host(`hostname`)` matcher text that `generateTraefikYaml` emits, and the
extracted hostname is always the empty string.  Every other field of the
round-trip rule is recovered intact. -/
theorem c6_roundtrip_loses_hostname :
    (extractRuleFromYaml "id1" (generateTraefikYaml roundTripRule) "api.yaml").map
        (fun e => e.hostname) = some ""
    ∧ roundTripRule.hostname = "api.example.com"
    ∧ (extractRuleFromYaml "id1" (generateTraefikYaml roundTripRule) "api.yaml").map
        (fun e => e.name) = some roundTripRule.name
    ∧ (extractRuleFromYaml "id1" (generateTraefikYaml roundTripRule) "api.yaml").map
        (fun e => e.backendUrl) = some roundTripRule.backendUrl
    ∧ (extractRuleFromYaml "id1" (generateTraefikYaml roundTripRule) "api.yaml").map
        (fun e => e.entryPoints) = some roundTripRule.entryPoints
    ∧ (extractRuleFromYaml "id1" (generateTraefikYaml roundTripRule) "api.yaml").map
        (fun e => e.tls) = some roundTripRule.tls
    ∧ (extractRuleFromYaml "id1" (generateTraefikYaml roundTripRule) "api.yaml").map
        (fun e => e.middlewares) = some roundTripRule.middlewares
    ∧ (extractRuleFromYaml "id1" (generateTraefikYaml roundTripRule) "api.yaml").map
        (fun e => e.certResolver) = some roundTripRule.certResolver
    ∧ (extractRuleFromYaml "id1" (generateTraefikYaml roundTripRule) "api.yaml").map
        (fun e => e.stickySession) = some roundTripRule.stickySession
    ∧ (extractRuleFromYaml "id1" (generateTraefikYaml roundTripRule) "api.yaml").map
        (fun e => e.healthCheckPath) = some roundTripRule.healthCheckPath := by
  decide

/-! ## Claim C1 -/

/-- Claim C1 counterexample: with index entry `web1 ↦ X` backed by
`app.yaml`, editing the router name inside `app.yaml` to `web2` (filename
unchanged) makes reconciliation assign the fresh uuid `Y` instead of
preserving `X`, while renaming the file to `app2.yaml` with the router
name kept `web1` preserves `X` instead of producing a new id — the
opposite of the claim on both counts. -/
theorem c1_counterexample_resolution_not_by_filename :
    (syncFromDisk [c1Existing] [{ name := "app.yaml", doc := some (mkSimpleDoc "web2"), mtime := 3 }]
        ["Y"]).map (fun r => r.id) = ["Y"]
    ∧ c1Existing.fileName = "app.yaml"
    ∧ c1Existing.id = "X"
    ∧ "Y" ≠ "X"
    ∧ (syncFromDisk [c1Existing] [{ name := "app2.yaml", doc := some (mkSimpleDoc "web1"), mtime := 3 }]
        ["Y"]).map (fun r => r.id) = ["X"] := by
  decide

/-- Claim C1 (amended): the key used to resolve a discovered rule's stable
id is the *router name* (the `name` the previous index entry carried), not
the filename stem: for any single discovered file whose router name hits
the name-keyed id map the prior id is reused — whatever the file is called
— and for any file whose router name misses the map a fresh uuid is drawn. -/
theorem c1_id_resolution_keyed_by_router_name
    (existing : List TRule) (f₁ f₂ : String) (doc₁ doc₂ : TraefikDoc)
    (n₁ n₂ : String) (r₁ r₂ : RouterConfig) (s₁ s₂ : ServiceConfig)
    (mt : Nat) (x u : String) (rest : List String)
    (hg₁ : extractGuard doc₁ = some (n₁, r₁, s₁))
    (hfound : jsMapGet (existing.map (fun r => (r.name, r.id))) n₁ = some x)
    (hg₂ : extractGuard doc₂ = some (n₂, r₂, s₂))
    (hmiss : jsMapGet (existing.map (fun r => (r.name, r.id))) n₂ = none) :
    (syncFromDisk existing [{ name := f₁, doc := some doc₁, mtime := mt }] rest).map
        (fun r => r.id) = [x]
    ∧ (syncFromDisk existing [{ name := f₂, doc := some doc₂, mtime := mt }] (u :: rest)).map
        (fun r => r.id) = [u] := by
  constructor
  · simp [syncFromDisk, discoverRules, hg₁, hfound, extractRuleFromYaml, extractedRule]
  · simp [syncFromDisk, discoverRules, hg₂, hmiss, extractRuleFromYaml, extractedRule]

/-- Witness for the amended C1 theorem at the `app.yaml`/`web1` fixture. -/
theorem c1_id_resolution_keyed_by_router_name_witness :
    (syncFromDisk [c1Existing] [{ name := "app2.yaml", doc := some (mkSimpleDoc "web1"), mtime := 3 }]
        ["Y"]).map (fun r => r.id) = ["X"]
    ∧ (syncFromDisk [c1Existing] [{ name := "app.yaml", doc := some (mkSimpleDoc "web2"), mtime := 3 }]
        ("Y" :: [])).map (fun r => r.id) = ["Y"] := by
  have h := c1_id_resolution_keyed_by_router_name [c1Existing] "app2.yaml" "app.yaml"
    (mkSimpleDoc "web1") (mkSimpleDoc "web2") "web1" "web2"
    { rule := "Host(`a.example.com`)", entryPoints := some ["web"] }
    { rule := "Host(`a.example.com`)", entryPoints := some ["web"] }
    { loadBalancer := some { servers := [{ url := "http://x:1" }] } }
    { loadBalancer := some { servers := [{ url := "http://x:1" }] } }
    3 "X" "Y" [] (by decide) (by decide) (by decide) (by decide)
  exact h

/-! ## Claim C4 counterexample -/

/-- Claim C4 counterexample: a reconciliation pass over two distinct files
that both define a router named `site` stores two index entries named
`site`, so the at-most-one-rule-per-name invariant does not hold after
every reconciliation pass. -/
theorem c4_counterexample_sync_duplicates_names :
    ((syncFromDisk [] [siteFileA, siteFileB] ["A", "B"]).countP (fun r => r.name == "site")) = 2 := by
  decide

/-! ## Claim C8 counterexample -/

/-- Claim C8 counterexample: with two files both defining router `site`,
the first reconciliation assigns ids `A` and `B`; the second — over the
identical directory — collapses the name-keyed id map (a JS `Map` keeps the
last binding per key) and returns ids `B` and `B`, so running reconciliation
twice over an unchanged directory does not reproduce the first run's ids. -/
theorem c8_counterexample_sync_not_idempotent :
    (syncFromDisk [] [siteFileA, siteFileB] ["A", "B"]).map (fun r => r.id) = ["A", "B"]
    ∧ (syncFromDisk (syncFromDisk [] [siteFileA, siteFileB] ["A", "B"])
        [siteFileA, siteFileB] ["C", "D"]).map (fun r => r.id) = ["B", "B"]
    ∧ (syncFromDisk (syncFromDisk [] [siteFileA, siteFileB] ["A", "B"])
        [siteFileA, siteFileB] ["C", "D"])
      ≠ syncFromDisk [] [siteFileA, siteFileB] ["A", "B"] := by
  decide

/-! ## Claim C9 -/

/-- While a burst is in progress, every further event that arrives before
the pending deadline re-arms the timer; the single fire lands one window
after the last event. -/
theorem debounceRun_pending (w : Nat) (es : List Nat) :
    ∀ t : Nat, List.Chain (fun a b => a ≤ b ∧ b < a + w) t es →
      debounceRun w es (some (t + w)) = [es.getLastD t + w] := by
  induction es with
  | nil => intro t _; rfl
  | cons e es ih =>
      intro t hch
      rw [List.chain_cons] at hch
      obtain ⟨⟨_, hgap⟩, htail⟩ := hch
      have hnot : ¬ (t + w ≤ e) := by omega
      simp only [debounceRun, if_neg hnot, List.getLastD_cons]
      exact ih e htail

/-- Claim C9: a burst of watcher events whose consecutive gaps are all
shorter than the 500 ms debounce window of `startFileWatcher` triggers
exactly one reconciliation, and it runs one window after the last event. -/
theorem c9_debounce_collapses_burst (e : Nat) (es : List Nat)
    (h : List.Chain (fun a b => a ≤ b ∧ b < a + watcherDebounceMs) e es) :
    debounceFireTimes (e :: es) = [es.getLastD e + watcherDebounceMs]
    ∧ (debounceFireTimes (e :: es)).length = 1 := by
  have hrun : debounceFireTimes (e :: es) = [es.getLastD e + watcherDebounceMs] := by
    unfold debounceFireTimes debounceRun
    exact debounceRun_pending watcherDebounceMs es e h
  exact ⟨hrun, by rw [hrun]; rfl⟩

/-- Witness: ten events 100 ms apart collapse to a single reconciliation
at 1400 ms. -/
theorem c9_debounce_collapses_burst_witness :
    debounceFireTimes [0, 100, 200, 300, 400, 500, 600, 700, 800, 900] = [1400]
    ∧ (debounceFireTimes [0, 100, 200, 300, 400, 500, 600, 700, 800, 900]).length = 1 := by
  have h := c9_debounce_collapses_burst 0 [100, 200, 300, 400, 500, 600, 700, 800, 900]
    (by simp [List.chain_cons, watcherDebounceMs])
  simpa using h

/-! ## Claim C10 -/

/-- Claim C10: `pruneBackups` selects its candidates only by the filename
having `` `${name}-` `` as prefix and `.yaml` as extension, so when rule
`b` is named `a.name ++ "-" ++ suffix`, every backup snapshot of `b` is
also a candidate of rule `a`, and an update-triggered prune for `a` with
`maxBackups = 1` deletes `b`'s (older) snapshot: pruning is not isolated
per rule name. -/
theorem c10_backup_pruning_not_isolated (a suffix : String) (tA tB : Nat)
    (cA cB : Option TraefikDoc)
    (hlt : tB < tA)
    (hne : backupPath a tA ≠ backupPath (a ++ "-" ++ suffix) tB) :
    jsStartsWith (backupPath (a ++ "-" ++ suffix) tB) (a ++ "-") = true
    ∧ jsEndsWith (backupPath (a ++ "-" ++ suffix) tB) ".yaml" = true
    ∧ pruneBackups
        [{ file := backupPath a tA, mtime := tA, content := cA },
         { file := backupPath (a ++ "-" ++ suffix) tB, mtime := tB, content := cB }] a 1
      = [{ file := backupPath a tA, mtime := tA, content := cA }] := by
  have hshapeB : backupPath (a ++ "-" ++ suffix) tB
      = (a ++ "-") ++ (suffix ++ ("-" ++ (isoString tB ++ ".yaml"))) := by
    simp [backupPath, String.append_assoc]
  have hshapeB' : backupPath (a ++ "-" ++ suffix) tB
      = ((a ++ "-" ++ suffix) ++ "-" ++ isoString tB) ++ ".yaml" := by
    simp [backupPath, String.append_assoc]
  have hshapeA : backupPath a tA = (a ++ "-") ++ (isoString tA ++ ".yaml") := by
    simp [backupPath, String.append_assoc]
  have hshapeA' : backupPath a tA = ((a ++ "-" ++ isoString tA)) ++ ".yaml" := by
    simp [backupPath, String.append_assoc]
  have hpreB : jsStartsWith (backupPath (a ++ "-" ++ suffix) tB) (a ++ "-") = true := by
    rw [hshapeB]; exact jsStartsWith_append _ _
  have hsufB : jsEndsWith (backupPath (a ++ "-" ++ suffix) tB) ".yaml" = true := by
    rw [hshapeB']; exact jsEndsWith_append _ _
  have hpreA : jsStartsWith (backupPath a tA) (a ++ "-") = true := by
    rw [hshapeA]; exact jsStartsWith_append _ _
  have hsufA : jsEndsWith (backupPath a tA) ".yaml" = true := by
    rw [hshapeA']; exact jsEndsWith_append _ _
  refine ⟨hpreB, hsufB, ?_⟩
  have hbne : (backupPath a tA == backupPath (a ++ "-" ++ suffix) tB) = false := by
    simpa using hne
  have hbne' : (backupPath (a ++ "-" ++ suffix) tB == backupPath a tA) = false := by
    simpa using (Ne.symm hne)
  have hnle : ¬ (tA ≤ tB) := by omega
  simp only [pruneBackups, List.filter, hpreA, hsufA, hpreB, hsufB, Bool.and_self,
    sortByMtimeDesc, insertByMtimeDesc, if_neg hnle]
  simp [hbne, hbne', hlt, Nat.le_of_lt hlt]

/-- Witness: updating rule `app` (snapshot at t=2, `maxBackups = 1`)
deletes rule `app-x`'s older snapshot (t=1) from the shared backups
directory. -/
theorem c10_backup_pruning_not_isolated_witness :
    jsStartsWith (backupPath ("app" ++ "-" ++ "x") 1) ("app" ++ "-") = true
    ∧ jsEndsWith (backupPath ("app" ++ "-" ++ "x") 1) ".yaml" = true
    ∧ pruneBackups
        [{ file := backupPath "app" 2, mtime := 2, content := none },
         { file := backupPath ("app" ++ "-" ++ "x") 1, mtime := 1, content := none }] "app" 1
      = [{ file := backupPath "app" 2, mtime := 2, content := none }] := by
  exact c10_backup_pruning_not_isolated "app" "x" 2 1 none none (by omega) (by decide)

/-! ## Claim C8 (amended) -/

/-- Folding the JS-`Map` update over `ps` from any accumulator: the result
is the last matching binding if one exists, else the accumulator. -/
theorem jsMapGet_foldl_acc (k : String) (ps : List (String × String)) :
    ∀ acc : Option String,
      ps.foldl (fun acc p => if p.1 == k then some p.2 else acc) acc
        = match ps.foldl (fun acc p => if p.1 == k then some p.2 else acc) none with
          | some v => some v
          | none => acc := by
  induction ps with
  | nil => intro acc; rfl
  | cons p ps ih =>
      intro acc
      simp only [List.foldl_cons]
      rw [ih (if p.1 == k then some p.2 else acc), ih (if p.1 == k then some p.2 else none)]
      cases hM : ps.foldl (fun acc p => if p.1 == k then some p.2 else acc) none with
      | some v => rfl
      | none => cases hpk : p.1 == k <;> simp

theorem jsMapGet_of_all_ne (k : String) (ps : List (String × String))
    (h : ∀ p ∈ ps, (p.1 == k) = false) : jsMapGet ps k = none := by
  induction ps with
  | nil => rfl
  | cons p ps ih =>
      unfold jsMapGet at ih ⊢
      simp only [List.foldl_cons, h p (by simp), if_false]
      exact ih (fun q hq => h q (by simp [hq]))

/-- In a name-unique rule list, the name-keyed id map resolves every rule
to its own id. -/
theorem jsMapGet_self (R : List TRule) (h : (R.map (fun r => r.name)).Nodup) :
    ∀ r ∈ R, jsMapGet (R.map (fun r => (r.name, r.id))) r.name = some r.id := by
  induction R with
  | nil => intro r hr; cases hr
  | cons x rest ih =>
      intro r hr
      have hx : x.name ∉ rest.map (fun r => r.name) := by
        simp only [List.map_cons, List.nodup_cons] at h
        exact h.1
      have hrest : (rest.map (fun r => r.name)).Nodup := by
        simp only [List.map_cons, List.nodup_cons] at h
        exact h.2
      unfold jsMapGet
      simp only [List.map_cons, List.foldl_cons]
      rw [jsMapGet_foldl_acc]
      rcases List.mem_cons.mp hr with hcase | hmem
      · subst hcase
        have hnone : jsMapGet (rest.map (fun r => (r.name, r.id))) r.name = none := by
          apply jsMapGet_of_all_ne
          intro p hp
          simp only [List.mem_map] at hp
          obtain ⟨q, hq, rfl⟩ := hp
          simp only [beq_eq_false_iff_ne, ne_eq]
          intro hqx
          exact hx (List.mem_map.mpr ⟨q, hq, hqx⟩)
        unfold jsMapGet at hnone
        rw [hnone]
        simp
      · have := ih hrest r hmem
        unfold jsMapGet at this
        rw [this]

/-- Discovery is stable under replacing the id map by any map that already
resolves every discovered router name to the id the first run assigned:
the second run reproduces the first run's rules exactly and draws no fresh
uuids. -/
theorem discoverRules_stable (files : List DiskFile) :
    ∀ (m₁ : List (String × String)) (u₁ : List String)
      (m₂ : List (String × String)) (u₂ : List String),
      (∀ r ∈ discoverRules files m₁ u₁, jsMapGet m₂ r.name = some r.id) →
      discoverRules files m₂ u₂ = discoverRules files m₁ u₁ := by
  induction files with
  | nil => intro m₁ u₁ m₂ u₂ _; rfl
  | cons f fs ih =>
      intro m₁ u₁ m₂ u₂ hm
      cases hdoc : f.doc with
      | none =>
          simp only [discoverRules, hdoc]
          apply ih
          intro r hr
          apply hm
          simp only [discoverRules, hdoc]
          exact hr
      | some parsed =>
          cases hg : extractGuard parsed with
          | none =>
              simp only [discoverRules, hdoc, hg]
              apply ih
              intro r hr
              apply hm
              simp only [discoverRules, hdoc, hg]
              exact hr
          | some g =>
              obtain ⟨rn, router, svc⟩ := g
              have e₁ : discoverRules (f :: fs) m₁ u₁
                  = { extractedRule
                        (match jsMapGet m₁ rn with
                         | some x => x
                         | none => (u₁.head?).getD "") rn router svc f.name with
                      lastModified := some (isoString f.mtime),
                      yamlContent := some parsed }
                    :: discoverRules fs m₁
                        (match jsMapGet m₁ rn with
                         | some _ => u₁
                         | none => u₁.tail) := by
                simp only [discoverRules, hdoc, hg, extractRuleFromYaml]
              have hhead : jsMapGet m₂ rn
                  = some (match jsMapGet m₁ rn with
                          | some x => x
                          | none => (u₁.head?).getD "") := by
                have := hm _ (by rw [e₁]; exact List.mem_cons_self _ _)
                simpa [extractedRule] using this
              have e₂ : discoverRules (f :: fs) m₂ u₂
                  = { extractedRule
                        (match jsMapGet m₁ rn with
                         | some x => x
                         | none => (u₁.head?).getD "") rn router svc f.name with
                      lastModified := some (isoString f.mtime),
                      yamlContent := some parsed }
                    :: discoverRules fs m₂ u₂ := by
                simp only [discoverRules, hdoc, hg, extractRuleFromYaml, hhead]
              rw [e₁, e₂]
              congr 1
              apply ih
              intro r hr
              apply hm
              rw [e₁]
              exact List.mem_cons_of_mem _ hr

/-- Claim C8 (amended): when the discovered router names are pairwise
distinct, reconciliation is idempotent — a second `syncFromDisk` over the
unchanged directory reproduces exactly the rules (and ids) of the first
run, regardless of which fresh uuids would be available to it. -/
theorem c8_sync_idempotent_for_distinct_names (existing : List TRule) (files : List DiskFile)
    (u₁ u₂ : List String)
    (h : ((syncFromDisk existing files u₁).map (fun r => r.name)).Nodup) :
    syncFromDisk (syncFromDisk existing files u₁) files u₂ = syncFromDisk existing files u₁ := by
  unfold syncFromDisk at h ⊢
  apply discoverRules_stable
  intro r hr
  exact jsMapGet_self _ h r hr

/-- Witness: a directory with one file (router `site`) syncs to the same
single rule on the second pass even with a different uuid supply. -/
theorem c8_sync_idempotent_for_distinct_names_witness :
    syncFromDisk (syncFromDisk [] [siteFileA] ["A"]) [siteFileA] ["B"]
      = syncFromDisk [] [siteFileA] ["A"] := by
  exact c8_sync_idempotent_for_distinct_names [] [siteFileA] ["A"] ["B"] (by decide)


/-! ## Claim C4 (amended) -/

theorem findIdx?_lt {α : Type} (l : List α) (p : α → Bool) (i : Nat)
    (h : l.findIdx? p = some i) : i < l.length :=
  (List.findIdx?_eq_some_iff_findIdx_eq.mp h).1

theorem resolveUpdateIndex_lt (meta : List TRule) (idArg : String) (rule : TRule) (i : Nat)
    (h : resolveUpdateIndex meta idArg rule = some i) : i < meta.length := by
  unfold resolveUpdateIndex at h
  cases h1 : meta.findIdx? (fun r => r.id == idArg) with
  | some j =>
      rw [h1] at h
      injection h with h2
      subst h2
      exact findIdx?_lt _ _ _ h1
  | none =>
      rw [h1] at h
      cases h2 : jsTruthyStr rule.previousName with
      | some pn =>
          rw [h2] at h
          exact findIdx?_lt _ _ _ h
      | none =>
          rw [h2] at h
          by_cases h3 : rule.name != ""
          · rw [if_pos h3] at h
            exact findIdx?_lt _ _ _ h
          · rw [if_neg h3] at h
            cases h

theorem updateRule_index_shape (maxB : Int) (w : World) (idArg : String) (input : TRule)
    (now : Nat) (isUri : String → Bool) (outcome : WriteOutcome) :
    (updateRule maxB w idArg input now isUri outcome).1.indexRules = w.indexRules
    ∨ ∃ i stored,
        i < w.indexRules.length
        ∧ (updateRule maxB w idArg input now isUri outcome).1.indexRules
            = w.indexRules.set i stored
        ∧ stored.id = jsOrStr ((w.indexRules.get? i).map (fun r => r.id)) idArg
        ∧ (w.indexRules.any (fun r => r.name == stored.name && r.id != stored.id)) = false := by
  unfold updateRule
  cases hv : validateRule isUri (normalizeRule { input with id := idArg }) with
  | mk rule valid =>
  cases valid with
  | false => left; rfl
  | true =>
  cases hres : resolveUpdateIndex w.indexRules idArg rule with
  | none => left; simp only [hres, Bool.not_true, Bool.false_eq_true, if_false]
  | some i =>
  cases hsan : sanitizeName rule.name with
  | none => left; simp only [hres, hsan, Bool.not_true, Bool.false_eq_true, if_false]
  | some cleanName =>
  have hclean : cleanName = rule.name := by
    unfold sanitizeName at hsan
    by_cases hp : namePatternOk rule.name
    · rw [if_pos hp] at hsan; injection hsan with h2; exact h2.symm
    · rw [if_neg hp] at hsan; cases hsan
  simp only [hres, hsan, Bool.not_true, Bool.false_eq_true, if_false]
  by_cases hdup : w.indexRules.any
      (fun r => r.name == cleanName
        && r.id != jsOrStr ((w.indexRules.get? i).map (fun r => r.id)) idArg) = true
  · left; rw [if_pos hdup]
  · rw [if_neg hdup]
    have hdupf := Bool.eq_false_iff.mpr hdup
    cases outcome with
    | failClean => left; simp [atomicWrite]
    | failTruncated => left; simp [atomicWrite]
    | ok =>
        right
        simp only [atomicWrite, Bool.false_eq_true, if_false]
        refine ⟨i, _, resolveUpdateIndex_lt _ _ _ _ hres, rfl, rfl, ?_⟩
        simpa [hclean] using hdupf
    | fallbackOk =>
        right
        simp only [atomicWrite, Bool.false_eq_true, if_false]
        refine ⟨i, _, resolveUpdateIndex_lt _ _ _ _ hres, rfl, rfl, ?_⟩
        simpa [hclean] using hdupf


theorem sanitizeName_of_valid (isUri : String → Bool) (r : TRule)
    (h : (validateRule isUri r).2 = true) :
    sanitizeName (validateRule isUri r).1.name = some (validateRule isUri r).1.name := by
  unfold validateRule at h ⊢
  simp only at h ⊢
  simp only [validateRuleChecks, Bool.and_eq_true] at h
  unfold sanitizeName
  rw [if_pos]
  exact h.1.1.1.1.1.1.1

theorem createRule_index_shape (w : World) (input : TRule) (newId : String) (now : Nat)
    (isUri : String → Bool) (outcome : WriteOutcome) :
    (createRule w input newId now isUri outcome).1.indexRules = w.indexRules
    ∨ ∃ stored,
        (createRule w input newId now isUri outcome).1.indexRules = w.indexRules ++ [stored]
        ∧ (w.indexRules.any (fun r => r.name == stored.name)) = false := by
  unfold createRule
  cases hv : validateRule isUri (normalizeRule { input with id := newId }) with
  | mk rule valid =>
  cases valid with
  | false => left; rfl
  | true =>
  cases hsan : sanitizeName rule.name with
  | none => left; simp only [hsan, Bool.not_true, Bool.false_eq_true, if_false]
  | some cleanName =>
  simp only [hsan, Bool.not_true, Bool.false_eq_true, if_false]
  by_cases hsvc : (jsTruthyStr rule.serviceName).isNone = true
  · rw [if_pos hsvc]
    by_cases hdup : w.indexRules.any
        (fun r => r.name == ({ rule with serviceName := some rule.name } : TRule).name) = true
    · left; rw [if_pos hdup]
    · rw [if_neg hdup]
      have hdupf := Bool.eq_false_iff.mpr hdup
      cases outcome with
      | failClean => left; simp [atomicWrite]
      | failTruncated => left; simp [atomicWrite]
      | ok =>
          right
          simp only [atomicWrite, Bool.false_eq_true, if_false]
          exact ⟨_, rfl, by simpa using hdupf⟩
      | fallbackOk =>
          right
          simp only [atomicWrite, Bool.false_eq_true, if_false]
          exact ⟨_, rfl, by simpa using hdupf⟩
  · rw [if_neg hsvc]
    by_cases hdup : w.indexRules.any (fun r => r.name == rule.name) = true
    · left; rw [if_pos hdup]
    · rw [if_neg hdup]
      have hdupf := Bool.eq_false_iff.mpr hdup
      cases outcome with
      | failClean => left; simp [atomicWrite]
      | failTruncated => left; simp [atomicWrite]
      | ok =>
          right
          simp only [atomicWrite, Bool.false_eq_true, if_false]
          exact ⟨_, rfl, by simpa using hdupf⟩
      | fallbackOk =>
          right
          simp only [atomicWrite, Bool.false_eq_true, if_false]
          exact ⟨_, rfl, by simpa using hdupf⟩

theorem deleteRule_index_shape (maxB : Int) (w : World) (idArg : String) (now : Nat) :
    (deleteRule maxB w idArg now).1.indexRules = w.indexRules
    ∨ ∃ i, (deleteRule maxB w idArg now).1.indexRules = w.indexRules.eraseIdx i := by
  unfold deleteRule
  cases hfi : w.indexRules.findIdx? (fun r => r.id == idArg) with
  | none => left; simp [hfi]
  | some i =>
      cases hget : w.indexRules[i]? with
      | none => left; simp [hfi, hget]
      | some rule => right; exact ⟨i, by simp [hfi, hget]⟩


theorem nodup_set_of_fresh {α : Type} (l : List α) (i : Nat) (a : α)
    (h : l.Nodup) (_hlt : i < l.length)
    (ha : ∀ j, (hj : j < l.length) → j ≠ i → l.get ⟨j, hj⟩ ≠ a) :
    (l.set i a).Nodup := by
  rw [List.nodup_iff_injective_get] at h ⊢
  intro ⟨j, hj⟩ ⟨k, hk⟩ hjk
  simp only [List.length_set] at hj hk
  simp only [List.get_eq_getElem, List.getElem_set] at hjk
  by_cases hji : i = j <;> by_cases hki : i = k
  · simp only [Fin.mk.injEq]; omega
  · exfalso
    rw [if_pos hji, if_neg hki] at hjk
    exact ha k hk (fun hc => hki (hc.symm)) hjk.symm
  · exfalso
    rw [if_neg hji, if_pos hki] at hjk
    exact ha j hj (fun hc => hji (hc.symm)) hjk
  · rw [if_neg hji, if_neg hki] at hjk
    have hfin := h (show l.get ⟨j, hj⟩ = l.get ⟨k, hk⟩ by simpa using hjk)
    simpa [Fin.ext_iff] using hfin

theorem createRule_duplicate (w : World) (input : TRule) (newId : String) (now : Nat)
    (isUri : String → Bool) (outcome : WriteOutcome)
    (hv : (validateRule isUri (normalizeRule { input with id := newId })).2 = true)
    (hcol : (w.indexRules.any (fun r =>
        r.name == (validateRule isUri (normalizeRule { input with id := newId })).1.name)) = true) :
    createRule w input newId now isUri outcome = (w, .error .duplicate) := by
  have hsan := sanitizeName_of_valid isUri (normalizeRule { input with id := newId }) hv
  unfold createRule
  cases hveq : validateRule isUri (normalizeRule { input with id := newId }) with
  | mk rule valid =>
  rw [hveq] at hv hcol hsan
  simp only at hv hcol hsan
  subst hv
  simp only [Bool.not_true, Bool.false_eq_true, if_false, hsan]
  by_cases hsvc : (jsTruthyStr rule.serviceName).isNone = true
  · rw [if_pos hsvc, if_pos (by simpa using hcol)]
  · rw [if_neg hsvc, if_pos hcol]

theorem updateRule_duplicate (maxB : Int) (w : World) (idArg : String) (input : TRule)
    (now : Nat) (isUri : String → Bool) (outcome : WriteOutcome) (i : Nat)
    (hv : (validateRule isUri (normalizeRule { input with id := idArg })).2 = true)
    (hres : resolveUpdateIndex w.indexRules idArg
        (validateRule isUri (normalizeRule { input with id := idArg })).1 = some i)
    (hcol : (w.indexRules.any (fun r =>
        r.name == (validateRule isUri (normalizeRule { input with id := idArg })).1.name
        && r.id != jsOrStr ((w.indexRules.get? i).map (fun r => r.id)) idArg)) = true) :
    updateRule maxB w idArg input now isUri outcome = (w, .error .duplicate) := by
  have hsan := sanitizeName_of_valid isUri (normalizeRule { input with id := idArg }) hv
  unfold updateRule
  cases hveq : validateRule isUri (normalizeRule { input with id := idArg }) with
  | mk rule valid =>
  rw [hveq] at hv hres hcol hsan
  simp only at hv hres hcol hsan
  subst hv
  simp only [Bool.not_true, Bool.false_eq_true, if_false, hres, hsan]
  rw [if_pos (by simpa using hcol)]

theorem createRule_preserves_unique_names (w : World) (input : TRule) (newId : String)
    (now : Nat) (isUri : String → Bool) (outcome : WriteOutcome)
    (hnames : (w.indexRules.map (fun r => r.name)).Nodup) :
    ((createRule w input newId now isUri outcome).1.indexRules.map (fun r => r.name)).Nodup := by
  rcases createRule_index_shape w input newId now isUri outcome with hL | ⟨stored, hset, hany⟩
  · rw [hL]; exact hnames
  · rw [hset, List.map_append]
    simp only [List.map_cons, List.map_nil]
    rw [List.nodup_append]
    refine ⟨hnames, List.nodup_singleton _, ?_⟩
    intro a ha hb
    simp only [List.mem_singleton] at hb
    subst hb
    simp only [List.mem_map] at ha
    obtain ⟨r, hr, hrn⟩ := ha
    have hf := (List.any_eq_false.mp hany) r hr
    rw [hrn] at hf
    simp at hf

theorem updateRule_preserves_unique_names (maxB : Int) (w : World) (idArg : String)
    (input : TRule) (now : Nat) (isUri : String → Bool) (outcome : WriteOutcome)
    (hnames : (w.indexRules.map (fun r => r.name)).Nodup)
    (hids : (w.indexRules.map (fun r => r.id)).Nodup)
    (hidne : ∀ r ∈ w.indexRules, r.id ≠ "") :
    ((updateRule maxB w idArg input now isUri outcome).1.indexRules.map (fun r => r.name)).Nodup := by
  rcases updateRule_index_shape maxB w idArg input now isUri outcome with
    hL | ⟨i, stored, hlt, hset, hid, hany⟩
  · rw [hL]; exact hnames
  · rw [hset, List.map_set]
    apply nodup_set_of_fresh _ _ _ hnames (by simpa using hlt)
    intro j hj hne heq
    have hj' : j < w.indexRules.length := by simpa using hj
    have hrname : w.indexRules[j].name = stored.name := by
      simpa using heq
    have hmem : w.indexRules[j] ∈ w.indexRules := List.getElem_mem _
    have hfalse := (List.any_eq_false.mp hany) _ hmem
    have himp : w.indexRules[j].name = stored.name → w.indexRules[j].id = stored.id := by
      simpa using hfalse
    have hidr : w.indexRules[j].id = stored.id := himp hrname
    have higet : w.indexRules.get? i = some (w.indexRules.get ⟨i, hlt⟩) := List.get?_eq_get hlt
    have hne2 : (w.indexRules.get ⟨i, hlt⟩).id ≠ "" := hidne _ (List.get_mem _ _ _)
    have hstid : stored.id = w.indexRules[i].id := by
      rw [hid, higet]
      simp only [Option.map_some', jsOrStr]
      rw [if_neg (by simpa using hne2)]
      simp
    have hcol2 : (w.indexRules.map (fun r => r.id)).get ⟨j, by simpa using hj'⟩
        = (w.indexRules.map (fun r => r.id)).get ⟨i, by simpa using hlt⟩ := by
      simp [hidr, hstid]
    have hfin := List.nodup_iff_injective_get.mp hids hcol2
    have : j = i := by simpa [Fin.ext_iff] using hfin
    exact hne this

theorem deleteRule_preserves_unique_names (maxB : Int) (w : World) (idArg : String) (now : Nat)
    (hnames : (w.indexRules.map (fun r => r.name)).Nodup) :
    ((deleteRule maxB w idArg now).1.indexRules.map (fun r => r.name)).Nodup := by
  rcases deleteRule_index_shape maxB w idArg now with hL | ⟨i, hset⟩
  · rw [hL]; exact hnames
  · rw [hset]
    exact ((List.eraseIdx_sublist _ i).map _).nodup hnames

/-- Claim C4 (amended): the CRUD surface (create/update/delete) keeps the
metadata index at most one rule per name — given an index whose stored ids
are distinct and non-empty — and a create (or rename-via-update) whose
target name collides with an existing entry fails with a conflict error,
leaving the whole world (hence the single entry of that name) unchanged.
Reconciliation, by contrast, does not enforce uniqueness (see the
counterexample for this claim). -/
theorem c4_create_update_enforce_unique_names
    (w : World) (input : TRule) (newId idArg : String) (now : Nat)
    (isUri : String → Bool) (outcome : WriteOutcome) (maxB : Int)
    (hnames : (w.indexRules.map (fun r => r.name)).Nodup)
    (hids : (w.indexRules.map (fun r => r.id)).Nodup)
    (hidne : ∀ r ∈ w.indexRules, r.id ≠ "") :
    ((validateRule isUri (normalizeRule { input with id := newId })).2 = true →
      (w.indexRules.any (fun r =>
          r.name == (validateRule isUri (normalizeRule { input with id := newId })).1.name)) = true →
      createRule w input newId now isUri outcome = (w, .error .duplicate))
    ∧ (∀ i, (validateRule isUri (normalizeRule { input with id := idArg })).2 = true →
        resolveUpdateIndex w.indexRules idArg
          (validateRule isUri (normalizeRule { input with id := idArg })).1 = some i →
        (w.indexRules.any (fun r =>
            r.name == (validateRule isUri (normalizeRule { input with id := idArg })).1.name
            && r.id != jsOrStr ((w.indexRules.get? i).map (fun r => r.id)) idArg)) = true →
        updateRule maxB w idArg input now isUri outcome = (w, .error .duplicate))
    ∧ ((createRule w input newId now isUri outcome).1.indexRules.map (fun r => r.name)).Nodup
    ∧ ((updateRule maxB w idArg input now isUri outcome).1.indexRules.map (fun r => r.name)).Nodup
    ∧ ((deleteRule maxB w idArg now).1.indexRules.map (fun r => r.name)).Nodup := by
  exact ⟨fun hv hcol => createRule_duplicate w input newId now isUri outcome hv hcol,
         fun i hv hres hcol => updateRule_duplicate maxB w idArg input now isUri outcome i hv hres hcol,
         createRule_preserves_unique_names w input newId now isUri outcome hnames,
         updateRule_preserves_unique_names maxB w idArg input now isUri outcome hnames hids hidne,
         deleteRule_preserves_unique_names maxB w idArg now hnames⟩

/-- Witness: in `dupWorld`, creating a second `site` and renaming `blog`
(id `B`) to `site` both fail with the conflict error and leave the world
unchanged, and the name-uniqueness of the index is preserved by all three
operations. -/
theorem c4_create_update_enforce_unique_names_witness :
    createRule dupWorld sitePayload "C" 9 (fun _ => true) .ok
      = (dupWorld, .error .duplicate)
    ∧ updateRule 2 dupWorld "B" sitePayload 9 (fun _ => true) .ok
      = (dupWorld, .error .duplicate)
    ∧ ((createRule dupWorld sitePayload "C" 9 (fun _ => true) .ok).1.indexRules.map
        (fun r => r.name)).Nodup
    ∧ ((deleteRule 2 dupWorld "B" 9).1.indexRules.map (fun r => r.name)).Nodup := by
  have h := c4_create_update_enforce_unique_names dupWorld sitePayload "C" "B" 9
    (fun _ => true) .ok 2 (by decide) (by decide) (by decide)
  exact ⟨h.1 (by decide) (by decide),
         h.2.1 1 (by decide) (by decide) (by decide),
         h.2.2.1,
         h.2.2.2.2⟩


theorem insertByMtimeDesc_ge_all (b : Backup) (l : List Backup)
    (h : ∀ y ∈ l, b.mtime ≤ y.mtime) : insertByMtimeDesc b l = l ++ [b] := by
  induction l with
  | nil => rfl
  | cons x xs ih =>
      unfold insertByMtimeDesc
      rw [if_pos (h x (by simp))]
      rw [ih (fun y hy => h y (by simp [hy]))]
      simp

theorem sortByMtimeDesc_of_ascending (l : List Backup)
    (h : l.Pairwise (fun a b => a.mtime ≤ b.mtime)) :
    sortByMtimeDesc l = l.reverse := by
  induction l with
  | nil => rfl
  | cons x xs ih =>
      rw [List.pairwise_cons] at h
      unfold sortByMtimeDesc
      rw [ih h.2, insertByMtimeDesc_ge_all]
      · simp
      · intro y hy
        exact h.1 y (by simpa using hy)

theorem filter_not_in_front (t d : List Backup)
    (hnodup : ((t ++ d).map (fun b => b.file)).Nodup) :
    (t ++ d).filter (fun b => !(t.reverse.any (fun x => x.file == b.file))) = d := by
  rw [List.filter_append]
  have htake : t.filter (fun b => !(t.reverse.any (fun x => x.file == b.file))) = [] := by
    rw [List.filter_eq_nil_iff]
    intro a ha
    simp only [Bool.not_eq_true', Bool.not_eq_false]
    exact List.any_eq_true.mpr ⟨a, by simpa using ha, by simp⟩
  have hdisj : List.Disjoint (t.map (fun b => b.file)) (d.map (fun b => b.file)) := by
    rw [List.map_append, List.nodup_append] at hnodup
    exact hnodup.2.2
  have hdrop : d.filter (fun b => !(t.reverse.any (fun x => x.file == b.file))) = d := by
    rw [List.filter_eq_self]
    intro a ha
    simp only [Bool.not_eq_true', List.any_eq_false]
    intro x hx
    simp only [List.mem_reverse] at hx
    have hne : x.file ≠ a.file := fun hc =>
      hdisj (List.mem_map.mpr ⟨x, hx, rfl⟩) (List.mem_map.mpr ⟨a, ha, hc.symm⟩)
    simpa using hne
  rw [htake, hdrop]
  simp

theorem pruneBackups_of_ascending (l : List Backup) (nm : String) (k : Int)
    (hk : 0 < k)
    (hasc : l.Pairwise (fun a b => a.mtime ≤ b.mtime))
    (hfiles : (l.map (fun b => b.file)).Nodup)
    (hmatch : ∀ b ∈ l, (jsStartsWith b.file (nm ++ "-") && jsEndsWith b.file ".yaml") = true) :
    pruneBackups l nm k = l.drop (l.length - k.toNat) := by
  unfold pruneBackups
  rw [if_neg (by omega)]
  dsimp only
  rw [List.filter_eq_self.mpr hmatch]
  rw [sortByMtimeDesc_of_ascending l hasc]
  rw [List.drop_reverse]
  have key := filter_not_in_front (l.take (l.length - k.toNat)) (l.drop (l.length - k.toNat))
    (by rw [List.take_append_drop]; exact hfiles)
  rw [List.take_append_drop] at key
  exact key


theorem updateRule_app_step (maxB : Int) (isUri : String → Bool) (X nm : String)
    (inp : TRule) (tm : Nat) (R : TRule) (c : Option TraefikDoc) (mt : Nat)
    (backups : List Backup)
    (hv : (validateRule isUri (normalizeRule { inp with id := X })).2 = true)
    (hname : (validateRule isUri (normalizeRule { inp with id := X })).1.name = nm)
    (hR : R.id = X) (hRn : R.name = nm) :
    (∃ stored, (updateRule maxB ⟨[⟨buildYamlPath nm, c, mt⟩], backups, [R]⟩ X inp tm isUri
        .ok).1.indexRules = [stored] ∧ stored.id = X ∧ stored.name = nm)
    ∧ (∃ c2, (updateRule maxB ⟨[⟨buildYamlPath nm, c, mt⟩], backups, [R]⟩ X inp tm isUri
        .ok).1.dynamicFiles = [⟨buildYamlPath nm, c2, tm⟩])
    ∧ (updateRule maxB ⟨[⟨buildYamlPath nm, c, mt⟩], backups, [R]⟩ X inp tm isUri
        .ok).1.backupFiles
      = pruneBackups (setBackup backups ⟨backupPath nm tm, tm, c⟩) nm maxB := by
  have hsan := sanitizeName_of_valid isUri (normalizeRule { inp with id := X }) hv
  unfold updateRule
  cases hveq : validateRule isUri (normalizeRule { inp with id := X }) with
  | mk rule valid =>
  rw [hveq] at hv hname hsan
  simp only at hv hname hsan
  subst hv
  subst hname
  have hres : resolveUpdateIndex [R] X rule = some 0 := by
    unfold resolveUpdateIndex
    simp [List.findIdx?_cons, hR]
  simp only [Bool.not_true, Bool.false_eq_true, if_false, hres, hsan]
  have htid : jsOrStr (Option.map (fun r => r.id) ([R].get? 0)) X = X := by
    simp [hR, jsOrStr]
  have hdup : ([R].any (fun r =>
      r.name == rule.name && r.id != jsOrStr (Option.map (fun r => r.id) ([R].get? 0)) X)) = false := by
    simp [htid, hR]
    intro _
    simp [jsOrStr]
  simp only [htid]
  simp [hdup, getFile, atomicWrite, setFile, hRn, hR]


theorem setBackup_append (B : List Backup) (b : Backup)
    (h : ∀ x ∈ B, (x.file == b.file) = false) : setBackup B b = B ++ [b] := by
  unfold setBackup
  rw [if_neg]
  intro hc
  rw [List.any_eq_true] at hc
  obtain ⟨x, hx, hbe⟩ := hc
  rw [h x hx] at hbe
  cases hbe

theorem backupPath_matches (nm : String) (t' : Nat) :
    (jsStartsWith (backupPath nm t') (nm ++ "-") && jsEndsWith (backupPath nm t') ".yaml") = true := by
  have h1 : backupPath nm t' = (nm ++ "-") ++ (isoString t' ++ ".yaml") := by
    simp [backupPath, String.append_assoc]
  have h2 : backupPath nm t' = (nm ++ "-" ++ isoString t') ++ ".yaml" := by
    simp [backupPath, String.append_assoc]
  have hs : jsStartsWith (backupPath nm t') (nm ++ "-") = true := by
    rw [h1]; exact jsStartsWith_append _ _
  have he : jsEndsWith (backupPath nm t') ".yaml" = true := by
    rw [h2]; exact jsEndsWith_append _ _
  rw [hs, he]
  rfl


theorem updatesSeq_invariant (maxB : Int) (isUri : String → Bool) (X nm : String)
    (inputs : Nat → TRule) (t : Nat → Nat) (N : Nat)
    (r₀ : TRule) (c₀ : Option TraefikDoc) (mt₀ : Nat)
    (hk : 0 < maxB)
    (hv : ∀ j, 1 ≤ j → j ≤ N →
      (validateRule isUri (normalizeRule { inputs j with id := X })).2 = true)
    (hnm : ∀ j, 1 ≤ j → j ≤ N →
      (validateRule isUri (normalizeRule { inputs j with id := X })).1.name = nm)
    (hR0 : r₀.id = X) (hR0n : r₀.name = nm)
    (hmono : ∀ i j, 1 ≤ i → i < j → j ≤ N → t i < t j)
    (hstamp : ∀ i j, 1 ≤ i → i ≤ N → 1 ≤ j → j ≤ N →
      isoString (t i) = isoString (t j) → i = j) :
    ∀ n, n ≤ N →
      (∃ R, (updatesSeq maxB isUri X inputs t
          ⟨[⟨buildYamlPath nm, c₀, mt₀⟩], [], [r₀]⟩ n).indexRules = [R] ∧ R.id = X ∧ R.name = nm)
      ∧ (∃ c m, (updatesSeq maxB isUri X inputs t
          ⟨[⟨buildYamlPath nm, c₀, mt₀⟩], [], [r₀]⟩ n).dynamicFiles = [⟨buildYamlPath nm, c, m⟩])
      ∧ (updatesSeq maxB isUri X inputs t
          ⟨[⟨buildYamlPath nm, c₀, mt₀⟩], [], [r₀]⟩ n).backupFiles.map (fun b => (b.file, b.mtime))
          = (List.range' (n + 1 - min n maxB.toNat) (min n maxB.toNat)).map
              (fun j => (backupPath nm (t j), t j)) := by
  intro n
  induction n with
  | zero =>
      intro _
      refine ⟨⟨r₀, rfl, hR0, hR0n⟩, ⟨c₀, mt₀, rfl⟩, ?_⟩
      simp [updatesSeq]
  | succ n ih =>
      intro hle
      obtain ⟨⟨R, hIdx, hRid, hRname⟩, ⟨c, m0, hDyn⟩, hBk⟩ := ih (by omega)
      set W := updatesSeq maxB isUri X inputs t ⟨[⟨buildYamlPath nm, c₀, mt₀⟩], [], [r₀]⟩ n
        with hWdef
      have hW : W = (⟨[⟨buildYamlPath nm, c, m0⟩], W.backupFiles, [R]⟩ : World) := by
        rw [← hDyn, ← hIdx]
      have hstep := updateRule_app_step maxB isUri X nm (inputs (n+1)) (t (n+1)) R c m0
        W.backupFiles (hv (n+1) (by omega) hle) (hnm (n+1) (by omega) hle) hRid hRname
      have hunf : updatesSeq maxB isUri X inputs t ⟨[⟨buildYamlPath nm, c₀, mt₀⟩], [], [r₀]⟩ (n+1)
          = (updateRule maxB (⟨[⟨buildYamlPath nm, c, m0⟩], W.backupFiles, [R]⟩ : World) X
              (inputs (n+1)) (t (n+1)) isUri .ok).1 := by
        show (updateRule maxB W X (inputs (n+1)) (t (n+1)) isUri .ok).1 = _
        rw [← hW]
      obtain ⟨⟨stored, hsIdx, hsId, hsName⟩, ⟨c2, hsDyn⟩, hsBk⟩ := hstep
      refine ⟨⟨stored, by rw [hunf]; exact hsIdx, hsId, hsName⟩,
              ⟨c2, t (n+1), by rw [hunf]; exact hsDyn⟩, ?_⟩
      rw [hunf, hsBk]
      set B := W.backupFiles with hBdef
      set kN := maxB.toNat with hkN
      have hkN0 : 0 < kN := by omega
      set m := min n kN with hm
      have hmn : m ≤ n := by omega
      set lo := n + 1 - m with hlo
      have hlo1 : 1 ≤ lo := by omega
      have hlom : lo + m = n + 1 := by omega
      have hmemB : ∀ x ∈ B, ∃ j, lo ≤ j ∧ j ≤ n ∧ x.file = backupPath nm (t j) ∧ x.mtime = t j := by
        intro x hx
        have hmm : (x.file, x.mtime) ∈ B.map (fun b => (b.file, b.mtime)) :=
          List.mem_map.mpr ⟨x, hx, rfl⟩
        rw [hBk] at hmm
        obtain ⟨j, hj, hwf⟩ := List.mem_map.mp hmm
        obtain ⟨hj1, hj2⟩ := List.mem_range'_1.mp hj
        have hf := congrArg Prod.fst hwf
        have hmt := congrArg Prod.snd hwf
        simp only at hf hmt
        exact ⟨j, hj1, by omega, hf.symm, hmt.symm⟩
      have hfresh : ∀ x ∈ B,
          (x.file == (⟨backupPath nm (t (n+1)), t (n+1), c⟩ : Backup).file) = false := by
        intro x hx
        obtain ⟨j, hj1, hj2, hf, _⟩ := hmemB x hx
        rw [hf]
        rw [beq_eq_false_iff_ne]
        intro hc
        have hiso := backupPath_inj_stamp hc
        have := hstamp j (n+1) (by omega) (by omega) (by omega) (by omega) hiso
        omega
      rw [setBackup_append B _ hfresh]
      have hBlen : B.length = m := by
        have hlen := congrArg List.length hBk
        simpa using hlen
      have hpairBs : B.Pairwise (fun a b => a.mtime < b.mtime) := by
        have h1 : (B.map (fun b => (b.file, b.mtime))).Pairwise (fun p q => p.2 < q.2) := by
          rw [hBk]
          rw [List.pairwise_map]
          apply List.Pairwise.imp_of_mem ?_ (List.pairwise_lt_range' lo m)
          intro a b ha hb hab
          obtain ⟨ha1, ha2⟩ := List.mem_range'_1.mp ha
          obtain ⟨hb1, hb2⟩ := List.mem_range'_1.mp hb
          exact hmono a b (by omega) hab (by omega)
        rw [List.pairwise_map] at h1
        exact h1
      have hpairs : (B ++ [(⟨backupPath nm (t (n+1)), t (n+1), c⟩ : Backup)]).Pairwise
          (fun a b => a.mtime ≤ b.mtime) := by
        rw [List.pairwise_append]
        refine ⟨hpairBs.imp (fun h => le_of_lt h), List.pairwise_singleton _ _, ?_⟩
        intro x hx y hy
        simp only [List.mem_singleton] at hy
        subst hy
        obtain ⟨j, hj1, hj2, _, hmt⟩ := hmemB x hx
        rw [hmt]
        exact le_of_lt (hmono j (n+1) (by omega) (by omega) hle)
      have hfilesB : (B.map (fun b => b.file)).Nodup := by
        have hcomp : B.map (fun b => b.file)
            = (B.map (fun b => (b.file, b.mtime))).map Prod.fst := by
          rw [List.map_map]
          rfl
        rw [hcomp, hBk, List.map_map]
        apply List.Nodup.map_on ?_ (List.nodup_range' _ _)
        intro x hx y hy hxy
        obtain ⟨hx1, hx2⟩ := List.mem_range'_1.mp hx
        obtain ⟨hy1, hy2⟩ := List.mem_range'_1.mp hy
        have hiso := backupPath_inj_stamp (hxy : backupPath nm (t x) = backupPath nm (t y))
        exact hstamp x y (by omega) (by omega) (by omega) (by omega) hiso
      have hfiles : ((B ++ [(⟨backupPath nm (t (n+1)), t (n+1), c⟩ : Backup)]).map
          (fun b => b.file)).Nodup := by
        rw [List.map_append, List.nodup_append]
        refine ⟨hfilesB, by simp, ?_⟩
        intro a ha hb
        simp only [List.map_cons, List.map_nil, List.mem_singleton] at hb
        obtain ⟨x, hx, hxa⟩ := List.mem_map.mp ha
        have := hfresh x hx
        rw [hxa] at this
        rw [hb] at this
        simp at this
      have hmatch : ∀ b ∈ B ++ [(⟨backupPath nm (t (n+1)), t (n+1), c⟩ : Backup)],
          (jsStartsWith b.file (nm ++ "-") && jsEndsWith b.file ".yaml") = true := by
        intro b hb
        rw [List.mem_append] at hb
        rcases hb with hb | hb
        · obtain ⟨j, _, _, hf, _⟩ := hmemB b hb
          rw [hf]
          exact backupPath_matches nm (t j)
        · simp only [List.mem_singleton] at hb
          subst hb
          exact backupPath_matches nm (t (n+1))
      rw [pruneBackups_of_ascending _ nm maxB hk hpairs hfiles hmatch]
      rw [List.map_drop, List.map_append, hBk]
      have hsnap : ((⟨backupPath nm (t (n+1)), t (n+1), c⟩ : Backup).file,
          (⟨backupPath nm (t (n+1)), t (n+1), c⟩ : Backup).mtime)
          = (backupPath nm (t (n+1)), t (n+1)) := rfl
      simp only [List.map_cons, List.map_nil, hsnap]
      have hconcat : (List.range' lo m).map (fun j => (backupPath nm (t j), t j))
          ++ [(backupPath nm (t (n+1)), t (n+1))]
          = (List.range' lo (m + 1)).map (fun j => (backupPath nm (t j), t j)) := by
        have hr : List.range' lo (m + 1) = List.range' lo m ++ [lo + m] := by
          have h0 : List.range' lo (m + 1) 1 = List.range' lo m 1 ++ [lo + 1 * m] :=
            List.range'_concat lo m
          simpa using h0
        rw [hr, List.map_append]
        simp [hlom]
      rw [hconcat]
      have hlen2 : (B ++ [(⟨backupPath nm (t (n+1)), t (n+1), c⟩ : Backup)]).length = m + 1 := by
        simp [hBlen]
      rw [hlen2]
      by_cases hcase : n + 1 ≤ kN
      · have hq : m + 1 - kN = 0 := by omega
        rw [hq, List.drop_zero]
        have h1 : lo = n + 1 + 1 - min (n + 1) kN := by omega
        have h2 : m + 1 = min (n + 1) kN := by omega
        rw [← h1, ← h2]
      · have hq : m + 1 - kN = 1 := by omega
        rw [hq]
        have hr : List.range' lo (m + 1) = lo :: List.range' (lo + 1) m := by
          have := List.range'_succ lo m 1
          simpa using this
        rw [hr]
        simp only [List.map_cons, List.drop_succ_cons, List.drop_zero]
        have h1 : lo + 1 = n + 1 + 1 - min (n + 1) kN := by omega
        have h2 : m = min (n + 1) kN := by omega
        rw [← h1, ← h2]


/-- C7: backup pruning bound. For every positive retention bound k, every
rule name and every sequence of N > k valid updates to the same rule
(distinct, strictly increasing timestamps), after the N-th update exactly
k backup snapshot files for that rule name remain, and they are the
snapshots taken by the k most recent updates (updates N-k+1 .. N), i.e.
the k most-recently-modified ones. -/
theorem c7_backup_pruning_bound (k : Int) (isUri : String → Bool) (X nm : String)
    (inputs : Nat → TRule) (t : Nat → Nat) (N : Nat)
    (r₀ : TRule) (c₀ : Option TraefikDoc) (mt₀ : Nat)
    (hk : 1 ≤ k) (hkN : k.toNat < N)
    (hv : ∀ j, 1 ≤ j → j ≤ N →
      (validateRule isUri (normalizeRule { inputs j with id := X })).2 = true)
    (hnm : ∀ j, 1 ≤ j → j ≤ N →
      (validateRule isUri (normalizeRule { inputs j with id := X })).1.name = nm)
    (hR0 : r₀.id = X) (hR0n : r₀.name = nm)
    (hmono : ∀ i j, 1 ≤ i → i < j → j ≤ N → t i < t j)
    (hstamp : ∀ i j, 1 ≤ i → i ≤ N → 1 ≤ j → j ≤ N →
      isoString (t i) = isoString (t j) → i = j) :
    (updatesSeq k isUri X inputs t
        ⟨[⟨buildYamlPath nm, c₀, mt₀⟩], [], [r₀]⟩ N).backupFiles.length = k.toNat
    ∧ (updatesSeq k isUri X inputs t
        ⟨[⟨buildYamlPath nm, c₀, mt₀⟩], [], [r₀]⟩ N).backupFiles.map
          (fun b => (b.file, b.mtime))
        = (List.range' (N + 1 - k.toNat) k.toNat).map
            (fun j => (backupPath nm (t j), t j)) := by
  obtain ⟨_, _, hBk⟩ := updatesSeq_invariant k isUri X nm inputs t N r₀ c₀ mt₀
    (by omega) hv hnm hR0 hR0n hmono hstamp N (le_refl N)
  have hmin : min N k.toNat = k.toNat := by omega
  rw [hmin] at hBk
  refine ⟨?_, hBk⟩
  have hlen := congrArg List.length hBk
  simpa using hlen

theorem c7_backup_pruning_bound_witness :
    (updatesSeq 1 (fun _ => true) "X" (fun _ => appPayload) (fun j => j)
        ⟨[⟨buildYamlPath "app", none, 0⟩], [],
          [{ id := "X", name := "app" }]⟩ 2).backupFiles.length = (1 : Int).toNat
    ∧ (updatesSeq 1 (fun _ => true) "X" (fun _ => appPayload) (fun j => j)
        ⟨[⟨buildYamlPath "app", none, 0⟩], [],
          [{ id := "X", name := "app" }]⟩ 2).backupFiles.map
          (fun b => (b.file, b.mtime))
        = (List.range' (2 + 1 - (1 : Int).toNat) (1 : Int).toNat).map
            (fun j => (backupPath "app" ((fun j => j) j), (fun j => j) j)) :=
  c7_backup_pruning_bound 1 (fun _ => true) "X" "app" (fun _ => appPayload)
    (fun j => j) 2 { id := "X", name := "app" } none 0
    (by decide) (by decide)
    (fun j _ _ => show (validateRule (fun _ => true)
      (normalizeRule { appPayload with id := "X" })).2 = true by decide)
    (fun j _ _ => show (validateRule (fun _ => true)
      (normalizeRule { appPayload with id := "X" })).1.name = "app" by decide)
    (by decide) (by decide)
    (fun i j _ h _ => h)
    (by
      intro i j hi1 hi2 hj1 hj2
      interval_cases i <;> interval_cases j <;> decide)
